import Mathlib

/-!
Verification of the alosi adaptive-learning engine (`alosi/engine.py`).

The numeric routines of `engine.py` operate on numpy float arrays.  We embed
float values as an inductive type `FV`: an exact rational (`num`), or one of
the IEEE special values `nan`, `inf`, `ninf`.  Rounding is not modelled
(rational arithmetic is exact); the special-value propagation rules of numpy
(`nan` comparisons are false, `nan` propagates through arithmetic,
`np.maximum`/`np.minimum` propagate `nan`) are modelled exactly, because the
estimator manipulates NaN/Inf deliberately.

Vectors are `List FV`, matrices `List (List FV)` (row major, as in numpy).

The two transcendental operations appearing in the source — `np.log` inside
the relevance/knowledge computations and `np.power`/`np.sqrt` — do not map to
computable rational functions, so the embedding takes them as explicit
function parameters (`lg`, `sqrtF`, `qpow`); every theorem below either
holds for all instantiations or states its input so that only the exact
cases of these functions are exercised.
-/

/-- `EPSILON = 1e-10` from `engine.py` line 8. -/
def EPSILON : ℚ := 1 / 10000000000

/-- A numpy float value: an exact rational or an IEEE special value. -/
inductive FV where
  | num (q : ℚ)
  | nan
  | inf
  | ninf
deriving DecidableEq

/-- Unary negation on float values. -/
def fvNeg : FV → FV
  | .num q => .num (-q)
  | .nan => .nan
  | .inf => .ninf
  | .ninf => .inf

/-- IEEE addition. -/
def fvAdd : FV → FV → FV
  | .num a, .num b => .num (a + b)
  | .nan, _ => .nan
  | _, .nan => .nan
  | .inf, .ninf => .nan
  | .ninf, .inf => .nan
  | .inf, _ => .inf
  | _, .inf => .inf
  | .ninf, _ => .ninf
  | _, .ninf => .ninf

/-- IEEE subtraction. -/
def fvSub (a b : FV) : FV := fvAdd a (fvNeg b)

/-- IEEE multiplication (`0 * inf = nan`). -/
def fvMul : FV → FV → FV
  | .num a, .num b => .num (a * b)
  | .nan, _ => .nan
  | _, .nan => .nan
  | .inf, .inf => .inf
  | .inf, .ninf => .ninf
  | .ninf, .inf => .ninf
  | .ninf, .ninf => .inf
  | .inf, .num b => if 0 < b then .inf else if b < 0 then .ninf else .nan
  | .num a, .inf => if 0 < a then .inf else if a < 0 then .ninf else .nan
  | .ninf, .num b => if 0 < b then .ninf else if b < 0 then .inf else .nan
  | .num a, .ninf => if 0 < a then .ninf else if a < 0 then .inf else .nan

/-- IEEE division (division by zero gives a signed infinity, `0/0 = nan`). -/
def fvDiv : FV → FV → FV
  | .num a, .num b =>
      if b = 0 then (if a = 0 then .nan else if 0 < a then .inf else .ninf)
      else .num (a / b)
  | .nan, _ => .nan
  | _, .nan => .nan
  | .num _, .inf => .num 0
  | .num _, .ninf => .num 0
  | .inf, .num b => if b < 0 then .ninf else .inf
  | .ninf, .num b => if b < 0 then .inf else .ninf
  | .inf, .inf => .nan
  | .inf, .ninf => .nan
  | .ninf, .inf => .nan
  | .ninf, .ninf => .nan

/-- IEEE `<`: any comparison against `nan` is false. -/
def fvLt : FV → FV → Bool
  | .nan, _ => false
  | _, .nan => false
  | .num a, .num b => decide (a < b)
  | .ninf, .ninf => false
  | .ninf, _ => true
  | _, .ninf => false
  | .inf, _ => false
  | .num _, .inf => true

/-- IEEE `==`: false on `nan`, true on equal infinities. -/
def fvBeq : FV → FV → Bool
  | .num a, .num b => decide (a = b)
  | .inf, .inf => true
  | .ninf, .ninf => true
  | _, _ => false

/-- IEEE `<=`. -/
def fvLe (a b : FV) : Bool := fvLt a b || fvBeq a b

/-- `np.isnan`. -/
def isnanF : FV → Bool
  | .nan => true
  | _ => false

/-- `np.isinf` (either sign). -/
def isinfF : FV → Bool
  | .inf => true
  | .ninf => true
  | _ => false

/-- `np.isposinf`. -/
def isposinfF : FV → Bool
  | .inf => true
  | _ => false

/-- `np.maximum`: propagates `nan`, otherwise the larger value. -/
def fvMax (a b : FV) : FV :=
  if isnanF a || isnanF b then .nan else if fvLt a b then b else a

/-- `np.minimum`: propagates `nan`, otherwise the smaller value. -/
def fvMin (a b : FV) : FV :=
  if isnanF a || isnanF b then .nan else if fvLt b a then b else a

/-- Rational content of a float value (`0` for special values). -/
def ratOf : FV → ℚ
  | .num q => q
  | _ => 0

/-- A numpy bool promoted to a float (`True → 1.0`, `False → 0.0`). -/
def boolQ (b : Bool) : ℚ := if b then 1 else 0

/-- `astype(int)` on a float holding a (non-negative) integer value. -/
def fvToNat : FV → ℕ
  | .num q => q.floor.toNat
  | _ => 0

/-- Absolute value, `np.abs`. -/
def fvAbs : FV → FV
  | .num q => .num |q|
  | .nan => .nan
  | .inf => .inf
  | .ninf => .inf

/-- Row of the score-records table: (learner, activity, score), columns 0,1,2. -/
abbrev SRow : Type := FV × FV × FV

/-- Column 0 of a score record. -/
def scoreLearner (r : SRow) : FV := r.1

/-- Column 1 of a score record. -/
def scoreActivity (r : SRow) : FV := r.2.1

/-- Column 2 of a score record. -/
def scoreValue (r : SRow) : FV := r.2.2

abbrev VecFV : Type := List FV
abbrev MatFV : Type := List (List FV)

/-- `np.zeros(n)`. -/
def zerosV (n : ℕ) : VecFV := List.replicate n (.num 0)

/-- `np.zeros((q, k))`. -/
def zerosM (q k : ℕ) : MatFV := List.replicate q (zerosV k)

/-- Element-wise vector addition. -/
def vecAddFV (x y : VecFV) : VecFV := List.zipWith fvAdd x y

/-- `np.dot` of two vectors: sum of element-wise products, accumulated from 0. -/
def dotFV (x y : VecFV) : FV := (List.zipWith fvMul x y).foldl fvAdd (.num 0)

/-- `np.dot(M, v)` for a matrix and a vector: one dot product per row. -/
def matVecFV (M : MatFV) (v : VecFV) : VecFV := M.map (fun row => dotFV row v)

/-- `np.dot(v, M)` for a row vector and a matrix: dot of `v` with each column. -/
def vecMatFV (v : VecFV) (M : MatFV) : VecFV :=
  (List.range (M.headD []).length).map
    (fun k => dotFV v (M.map (fun row => row.getD k FV.nan)))

/-- `odds` from `engine.py` lines 469-479, on float values: clip the
probability into `[EPSILON, 1-EPSILON]` with `np.minimum`/`np.maximum`
(which propagate `nan`), then return `p/(1-p)`. -/
def oddsF (p : FV) : FV :=
  let p1 := fvMin (fvMax p (.num EPSILON)) (.num (1 - EPSILON))
  fvDiv p1 (fvSub (.num 1) p1)

/-- `odds` from `engine.py` lines 469-479, restricted to finite inputs
(used to state claims about the relevance formula over exact rationals). -/
def odds (p : ℚ) : ℚ :=
  let p1 := min (max p EPSILON) (1 - EPSILON)
  p1 / (1 - p1)

/-- `calculate_relevance` from `engine.py` lines 492-499:
`-log(odds(guess)) - log(odds(slip))`, element-wise, with the log function
passed explicitly (natural log is not rational-computable). -/
def calculate_relevanceFV (lg : FV → FV) (guess slip : MatFV) : MatFV :=
  List.zipWith
    (fun grow srow =>
      List.zipWith (fun g s => fvSub (fvNeg (lg (oddsF g))) (lg (oddsF s))) grow srow)
    guess slip

/-- The `value` argument of `fillna` on a vector: a scalar or a same-shape array. -/
inductive FillV where
  | fscalar (v : FV)
  | farr (a : VecFV)

/-- The `value` argument of `fillna` on a matrix. -/
inductive FillM where
  | fscalarM (v : FV)
  | farrM (a : MatFV)

/-- Result of a `fillna` call on a vector, making the side effects on both
array arguments explicit: `x_after` is the value of the caller's array `x`
after the call, `value_after` the value of the caller's `value` argument
(the source never writes into `value`), `ret` the returned array. -/
structure FillnaVOut where
  x_after : VecFV
  value_after : FillV
  ret : Option VecFV

/-- Result of a `fillna` call on a matrix. -/
structure FillnaMOut where
  x_after : MatFV
  value_after : FillM
  ret : Option MatFV

/-- `fillna` from `engine.py` lines 11-26, on a vector.  Translated exactly
as written: `output = x.copy() if inplace else x` — so when `inplace` is
true the replacement happens on a discarded copy and `x` is left unchanged,
and when `inplace` is false the replacement happens on `x` itself (the
returned array is `x`, mutated).  Replacement positions are the NaN and
±Inf entries; a scalar `value` fills them all, an array `value` fills
position `i` with `value[i]`. -/
def fillnaVec (x : VecFV) (value : FillV) (inplace : Bool) : FillnaVOut :=
  let fillAt : ℕ → FV := fun i =>
    match value with
    | .fscalar v => v
    | .farr a => a.getD i FV.nan
  let filled : VecFV :=
    (List.range x.length).map (fun i =>
      let xi := x.getD i FV.nan
      if isnanF xi || isinfF xi then fillAt i else xi)
  { x_after := if inplace then x else filled
    value_after := value
    ret := if inplace then none else some filled }

/-- `fillna` from `engine.py` lines 11-26, on a matrix (same translation as
`fillnaVec`). -/
def fillnaMat (x : MatFV) (value : FillM) (inplace : Bool) : FillnaMOut :=
  let fillAt : ℕ → ℕ → FV := fun i j =>
    match value with
    | .fscalarM v => v
    | .farrM a => (a.getD i []).getD j FV.nan
  let filled : MatFV :=
    (List.range x.length).map (fun i =>
      (List.range (x.getD i []).length).map (fun j =>
        let xij := (x.getD i []).getD j FV.nan
        if isnanF xij || isinfF xij then fillAt i j else xij))
  { x_after := if inplace then x else filled
    value_after := value
    ret := if inplace then none else some filled }

/-- Matrix argument carried by a `FillM`, for reading off the state of the
caller's array after a `fillna` call. -/
def FillM.arrOf : FillM → MatFV
  | .fscalarM _ => []
  | .farrM a => a

/-- Vector argument carried by a `FillV`. -/
def FillV.arrOf : FillV → VecFV
  | .fscalar _ => []
  | .farr a => a

/-- `x0_mult` from `engine.py` lines 316-323: `slip*(1+guess)/(1+slip)`. -/
def x0_mult (guess slip : ℚ) : ℚ := slip * (1 + guess) / (1 + slip)

/-- `x1_0_mult` from `engine.py` lines 326-333:
`((1+guess)/(guess*(1+slip)))/x0_mult(guess, slip)`. -/
def x1_0_mult (guess slip : ℚ) : ℚ :=
  ((1 + guess) / (guess * (1 + slip))) / x0_mult guess slip

/-- A stand-in for `np.power` used at concrete inputs: exact when the
exponent is 1 (`a^1 = a`), the only exponent exercised by the concrete
theorems below; positivity-preserving like the real power function. -/
def powLinear : ℚ → ℚ → ℚ := fun a _ => a

/-- `calculate_mastery_update` from `engine.py` lines 336-355, element-wise
over exact rationals.  `qpow` stands for `np.power` (real exponentiation is
not rational-computable).  The source's cleanup assigns `1/epsilon` at
`np.isposinf` positions — infinities cannot arise in exact rational
arithmetic, so that mask is empty here — and `epsilon` at exact zeros. -/
def calculate_mastery_update (qpow : ℚ → ℚ → ℚ) (mastery : List ℚ) (score : ℚ)
    (guess slip transit : List ℚ) (epsilon : ℚ) : List ℚ :=
  let x := List.zipWith (fun g s => x0_mult g s * qpow (x1_0_mult g s) score) guess slip
  let L := List.zipWith (fun m xv => m * xv) mastery x
  let L2 := List.zipWith (fun l t => l + t * (l + 1)) L transit
  L2.map (fun l => if l = 0 then epsilon else l)

/-- In-memory storage backing the abstract reader/writer hooks of
`BaseAlosiAdaptiveEngine` (shapes as in `examples/example_engine.py`):
per-learner mastery rows, the three Q×K parameter matrices, and the
append-only score table. -/
structure EngineState where
  Mastery : List (List ℚ)
  Guess : List (List ℚ)
  Slip : List (List ℚ)
  Transit : List (List ℚ)
  Scores : List (ℕ × ℕ × ℚ)
deriving DecidableEq

/-- `BaseAlosiAdaptiveEngine.update_from_score` from `engine.py` lines
276-292: read the learner's mastery row and the activity's guess/slip/transit
rows, apply `calculate_mastery_update`, write the new mastery, then append
the score record.  The source performs no validation of `score`. -/
def updateFromScore (qpow : ℚ → ℚ → ℚ) (st : EngineState)
    (learner activity : ℕ) (score : ℚ) : EngineState :=
  let mastery := st.Mastery.getD learner []
  let guess := st.Guess.getD activity []
  let slip := st.Slip.getD activity []
  let transit := st.Transit.getD activity []
  let new_mastery := calculate_mastery_update qpow mastery score guess slip transit EPSILON
  { st with
      Mastery := st.Mastery.set learner new_mastery
      Scores := st.Scores ++ [(learner, activity, score)] }

/-- `recommendation_score_P` from `engine.py` lines 399-417.  `m_w` aliases
the caller's `prereqs` array; `fillna(m_w)` is called with the default
`inplace=False`, which (by the `fillna` translation above) replaces the
NaN/Inf entries of `m_w` itself, a mutation visible to the caller — the
second component of the result is the caller's `prereqs` after the call.
Then `m_r = (minimum(mastery - L_star, 0)) · m_w` and
`P = relevance · minimum(m_r + r_star, 0)`. -/
def recommendation_score_P (relevance : MatFV) (learner_mastery_odds : VecFV)
    (prereqs : MatFV) (r_star L_star : FV) : VecFV × MatFV :=
  let fOut := fillnaMat prereqs (FillM.fscalarM (.num 0)) false
  let m_w := fOut.x_after
  let m_r := vecMatFV (learner_mastery_odds.map (fun L => fvMin (fvSub L L_star) (.num 0))) m_w
  let P := matVecFV relevance (m_r.map (fun v => fvMin (fvAdd v r_star) (.num 0)))
  (P, fOut.x_after)

/-- `recommendation_score_R` from `engine.py` lines 420-428:
`relevance · maximum(L_star - mastery, 0)`. -/
def recommendation_score_R (relevance : MatFV) (learner_mastery_odds : VecFV)
    (L_star : FV) : VecFV :=
  matVecFV relevance (learner_mastery_odds.map (fun L => fvMax (fvSub L_star L) (.num 0)))

/-- `recommendation_score_C` from `engine.py` lines 431-447: the zero
Q-vector when there is no last attempted activity, otherwise
`sqrt(relevance · last_attempted_relevance)` (square root passed
explicitly). -/
def recommendation_score_C (sqrtF : FV → FV) (relevance : MatFV)
    (last_attempted_relevance : Option VecFV) : VecFV :=
  match last_attempted_relevance with
  | none => List.replicate relevance.length (.num 0)
  | some v => (matVecFV relevance v).map sqrtF

/-- `recommendation_score_D` from `engine.py` lines 450-466.  The source
forms `d_temp = tile(difficulty, (K,1))`, `L_temp = tile(mastery, (Q,1)).T`
and takes `-diag(relevance · abs(L_temp - d_temp))`; entry `q` of that
expression is `-Σ_k relevance[q,k]·|mastery[k] - difficulty[q]|`, which is
what is computed here. -/
def recommendation_score_D (relevance : MatFV) (learner_mastery_odds : VecFV)
    (difficulty : VecFV) : VecFV :=
  let K := learner_mastery_odds.length
  let Q := difficulty.length
  (List.range Q).map (fun q =>
    fvNeg (dotFV (relevance.getD q [])
      ((List.range K).map (fun k =>
        fvAbs (fvSub (learner_mastery_odds.getD k FV.nan) (difficulty.getD q FV.nan))))))

/-- `recommendation_score` from `engine.py` lines 358-396.  The four
substrategy vectors are stacked as `subscores = [P, R, C, D]` and dotted
with `weights = [W_p, W_r, W_d, W_c]` — exactly as in the source, where the
third weight (W_d) therefore multiplies the third subscore row (C) and the
fourth (W_c) multiplies D.  The second component is the caller's `prereqs`
array after the call (mutated inside `recommendation_score_P`). -/
def recommendation_score (sqrtF : FV → FV) (relevance : MatFV)
    (learner_mastery_odds : VecFV) (prereqs : MatFV) (r_star L_star : FV)
    (difficulty : VecFV) (W_p W_r W_d W_c : FV)
    (last_attempted_relevance : Option VecFV) : VecFV × MatFV :=
  let PP := recommendation_score_P relevance learner_mastery_odds prereqs r_star L_star
  let P := PP.1
  let R := recommendation_score_R relevance learner_mastery_odds L_star
  let C := recommendation_score_C sqrtF relevance last_attempted_relevance
  let D := recommendation_score_D relevance learner_mastery_odds difficulty
  let subscores := [P, R, C, D]
  let weights := [W_p, W_r, W_d, W_c]
  let scores := (List.range relevance.length).map (fun q =>
    (List.zipWith (fun w sub => fvMul w (sub.getD q FV.nan)) weights subscores).foldl
      fvAdd (.num 0))
  (scores, PP.2)

/-- The recommendation combination as the claim states it (each weight
multiplying the substrategy named by its subscript):
`W_p*P + W_r*R + W_d*D + W_c*C`.  Stated from the claim's words for
comparison with `recommendation_score` above. -/
def recommendation_score_claim (sqrtF : FV → FV) (relevance : MatFV)
    (learner_mastery_odds : VecFV) (prereqs : MatFV) (r_star L_star : FV)
    (difficulty : VecFV) (W_p W_r W_d W_c : FV)
    (last_attempted_relevance : Option VecFV) : VecFV :=
  let P := (recommendation_score_P relevance learner_mastery_odds prereqs r_star L_star).1
  let R := recommendation_score_R relevance learner_mastery_odds L_star
  let C := recommendation_score_C sqrtF relevance last_attempted_relevance
  let D := recommendation_score_D relevance learner_mastery_odds difficulty
  (List.range relevance.length).map (fun q =>
    fvAdd (fvAdd (fvMul W_p (P.getD q FV.nan)) (fvMul W_r (R.getD q FV.nan)))
      (fvAdd (fvMul W_d (D.getD q FV.nan)) (fvMul W_c (C.getD q FV.nan))))

/-- Python's builtin `min` over a float sequence: keep the accumulator
unless the next item compares strictly smaller (IEEE `<`). -/
def pythonMin (l : List FV) : FV :=
  match l with
  | [] => .nan
  | h :: t => t.foldl (fun acc v => if fvLt v acc then v else acc) h

/-- The indicator vector built in the second loop of `knowledge`
(`engine.py` lines 547-552): all-ones for `i = 0`, ones on `[i, N)` for
`0 < i < N`, all-zeros for `i = N`. -/
def indicatorVec (i N : ℕ) : List ℚ :=
  if i = 0 then List.replicate N 1
  else if i < N then List.replicate i 0 ++ List.replicate (N - i) 1
  else List.replicate N 0

/-- The per-KC body of the second loop of `knowledge` (`engine.py` lines
545-555), for one column `col = z[:, j]` of the cost matrix: find the
indices equal (IEEE `==`) to `min(col)`, sum their indicator vectors
starting from `np.zeros(N)`, and divide by the number of indices.  The sums
involve only the exact values 0 and 1 and the count, so this part is
carried in exact rationals. -/
def colKnowl (col : List FV) (N : ℕ) : List ℚ :=
  let m := pythonMin col
  let ind := (List.range (N + 1)).filter (fun i => fvBeq (col.getD i FV.nan) m)
  let s := ind.foldl (fun acc i => List.zipWith (· + ·) acc (indicatorVec i N))
    (List.replicate N (0 : ℚ))
  s.map (fun v => v / (ind.length : ℚ))

/-- The `(N+1)×K` cost matrix `z` of `knowledge` (`engine.py` lines
516-541).  Row 0 is `(1-correctness)·m_slip_u`, row `N` is
`correctness·m_guess_u`, and row `n` (0 < n < N) is the dot of
`[c_0..c_{n-1}, 1-c_n..1-c_{N-1}]` with `vstack(m_guess_u[0:n], m_slip_u[n:])`
— written here as a dot of the stacked lists, which is exactly the loop's
`z[n,] = np.dot(x, temp)`. -/
def kZ (lg : FV → FV) (scores : List SRow) (guess slip : MatFV) : MatFV :=
  let activity_idxs := scores.map (fun r => fvToNat (scoreActivity r))
  let m_guess_u : MatFV := activity_idxs.map (fun q => (guess.getD q []).map (fun v => fvNeg (lg v)))
  let m_slip_u : MatFV := activity_idxs.map (fun q => (slip.getD q []).map (fun v => fvNeg (lg v)))
  let n_los := (guess.headD []).length
  let N := scores.length
  let correctness : List FV := scores.map scoreValue
  let combo : List FV → MatFV → VecFV := fun x M =>
    (List.range n_los).map (fun k => dotFV x (M.map (fun row => row.getD k FV.nan)))
  (List.range (N + 1)).map (fun n =>
    if n = 0 then combo (correctness.map (fun c => fvSub (.num 1) c)) m_slip_u
    else if n = N then combo correctness m_guess_u
    else combo (correctness.take n ++ (correctness.drop n).map (fun c => fvSub (.num 1) c))
      (m_guess_u.take n ++ m_slip_u.drop n))

/-- `knowledge` from `engine.py` lines 502-557: build the cost matrix `z`
(`kZ`), then fill column `j` of the `N×K` output from `colKnowl` applied to
column `j` of `z`. -/
def knowledge (lg : FV → FV) (scores : List SRow) (guess slip : MatFV) :
    List (List ℚ) :=
  let N := scores.length
  let n_los := (guess.headD []).length
  let z := kZ lg scores guess slip
  (List.range N).map (fun n =>
    (List.range n_los).map (fun j =>
      (colKnowl (z.map (fun row => row.getD j FV.nan)) N).getD n 0))

/-- The relevance matrix `m_k` as `estimate` builds it (`engine.py` lines
590-603): `trans = np.zeros((n_items, n_los))`, `guess = trans.copy()`,
`slip = trans.copy()`, then `m_k = calculate_relevance(guess, slip)` — i.e.
the relevance of the *zeroed accumulator matrices*, whose shape is taken
from `current_guess` but whose values do not depend on it. -/
def estimate_m_k (lg : FV → FV) (current_guess : MatFV) : MatFV :=
  let n_items := current_guess.length
  let n_los := (current_guess.headD []).length
  let trans := zerosM n_items n_los
  let guess := trans
  let slip := trans
  calculate_relevanceFV lg guess slip

/-- The per-learner row selection of `estimate` (`engine.py` line 614):
`score_records[score_activity == learner]` — the rows whose *activity*
column (column 1) equals the learner id. -/
def learnerRows (score_records : List SRow) (learner : FV) : List SRow :=
  score_records.filter (fun r => fvBeq (scoreActivity r) learner)

/-- The row selection the claim describes: the rows whose *learner* column
(column 0) equals the learner id.  Stated from the claim's words for
comparison with `learnerRows`. -/
def learnerRowsByLearner (score_records : List SRow) (learner : FV) : List SRow :=
  score_records.filter (fun r => fvBeq (scoreLearner r) learner)

/-- Insert into a sorted duplicate-free list (helper for `np.unique`). -/
def fvInsertUnique (v : FV) : List FV → List FV
  | [] => [v]
  | h :: t =>
      if fvBeq v h then h :: t
      else if fvLt v h then v :: h :: t
      else h :: fvInsertUnique v t

/-- `np.unique`: the sorted list of distinct values. -/
def uniqueSorted (l : List FV) : List FV :=
  l.foldl (fun acc v => fvInsertUnique v acc) []

/-- The accumulators of `estimate` (`engine.py` lines 593-600). -/
structure EstAccum where
  p_i : VecFV
  p_i_denom : VecFV
  guess : MatFV
  guess_denom : MatFV
  slip : MatFV
  slip_denom : MatFV
  trans : MatFV
  trans_denom : MatFV

/-- In-place update of row `q` of a matrix. -/
def updRow (M : MatFV) (q : ℕ) (f : VecFV → VecFV) : MatFV :=
  M.set q (f (M.getD q []))

/-- One iteration of the learner loop of `estimate` (`engine.py` lines
612-664): select the learner's rows (`learnerRows`, i.e. by the activity
column as the source does), skip the learner if none, threshold the
relevance rows into boolean masks, run `knowledge`, and accumulate the
prior/guess/slip/transit numerators and denominators. -/
def estimateLearnerStep (lg : FV → FV) (score_records : List SRow)
    (current_guess current_slip : MatFV) (m_k : MatFV) (n_los : ℕ)
    (relevance_threshold : ℚ) (acc : EstAccum) (learner : FV) : EstAccum :=
  let user_score_records := learnerRows score_records learner
  let user_scores := user_score_records.map scoreValue
  if user_scores.length = 0 then acc
  else
    let activity_idxs := user_score_records.map (fun r => fvToNat (scoreActivity r))
    let m_k_u : MatFV := activity_idxs.map (fun q => m_k.getD q (List.replicate n_los FV.nan))
    let u_R_sum := m_k_u.foldl vecAddFV (zerosV n_los)
    let u_R : List Bool := u_R_sum.map (fun v => fvLt (.num relevance_threshold) v)
    let m_k_u_b : List (List Bool) :=
      m_k_u.map (List.map (fun v => fvLt (.num relevance_threshold) v))
    let u_know := knowledge lg user_score_records current_guess current_slip
    let know0 := u_know.getD 0 []
    let p_i1 := (List.range n_los).map (fun k =>
      fvAdd (acc.p_i.getD k FV.nan) (.num (know0.getD k 0 * boolQ (u_R.getD k false))))
    let p_i_denom1 := (List.range n_los).map (fun k =>
      fvAdd (acc.p_i_denom.getD k FV.nan) (.num (boolQ (u_R.getD k false))))
    let J := user_scores.length
    let acc1 := { acc with p_i := p_i1, p_i_denom := p_i_denom1 }
    (List.range J).foldl (fun a j =>
      let q := activity_idxs.getD j 0
      let maskj := m_k_u_b.getD j []
      let knowj := u_know.getD j []
      let scorej := user_scores.getD j FV.nan
      let shorthand : List ℚ := (List.range n_los).map (fun k =>
        boolQ (maskj.getD k false) * (1 - knowj.getD k 0))
      let a2 := { a with
        guess := updRow a.guess q (fun row => (List.range n_los).map (fun k =>
          fvAdd (row.getD k FV.nan) (fvMul (.num (shorthand.getD k 0)) scorej)))
        guess_denom := updRow a.guess_denom q (fun row => (List.range n_los).map (fun k =>
          fvAdd (row.getD k FV.nan) (.num (shorthand.getD k 0)))) }
      let shorthand2 : List ℚ := (List.range n_los).map (fun k =>
        boolQ (maskj.getD k false) - shorthand.getD k 0)
      let a3 := { a2 with
        slip := updRow a2.slip q (fun row => (List.range n_los).map (fun k =>
          fvAdd (row.getD k FV.nan) (fvMul (.num (shorthand2.getD k 0)) (fvSub (.num 1) scorej))))
        slip_denom := updRow a2.slip_denom q (fun row => (List.range n_los).map (fun k =>
          fvAdd (row.getD k FV.nan) (.num (shorthand2.getD k 0)))) }
      if j < J - 1 then
        let knowNext := u_know.getD (j + 1) []
        { a3 with
          trans := updRow a3.trans q (fun row => (List.range n_los).map (fun k =>
            fvAdd (row.getD k FV.nan) (.num (shorthand.getD k 0 * knowNext.getD k 0))))
          trans_denom := updRow a3.trans_denom q (fun row => (List.range n_los).map (fun k =>
            fvAdd (row.getD k FV.nan) (.num (shorthand.getD k 0)))) }
      else a3) acc1

/-- Normalization step of `estimate` (`engine.py` lines 667-674): where the
denominator compares unequal to 0 (IEEE `!=`), divide. -/
def normVec (v d : VecFV) : VecFV :=
  List.zipWith (fun x dd => if fvBeq dd (.num 0) then x else fvDiv x dd) v d

/-- Matrix form of `normVec`. -/
def normMat (M D : MatFV) : MatFV := List.zipWith normVec M D

/-- Information-threshold step of `estimate` (lines 677-680): set to NaN
where the denominator is below the cutoff or zero. -/
def nanOutVec (v d : VecFV) (thr : ℚ) : VecFV :=
  List.zipWith (fun x dd =>
    if fvLt dd (.num thr) || fvBeq dd (.num 0) then FV.nan else x) v d

/-- Matrix form of `nanOutVec`. -/
def nanOutMat (M D : MatFV) (thr : ℚ) : MatFV :=
  List.zipWith (fun v d => nanOutVec v d thr) M D

/-- Degeneracy removal on the guess matrix (lines 685, 688): NaN where
`guess >= 0.5` or `guess + slip >= 1` (NaN comparisons are false, so NaN
cells are left as they are). -/
def degenGuess (guess slip : MatFV) : MatFV :=
  List.zipWith (fun grow srow =>
    List.zipWith (fun g s =>
      if fvLe (.num (1 / 2)) g || fvLe (.num 1) (fvAdd g s) then FV.nan else g) grow srow)
    guess slip

/-- Degeneracy removal on the slip matrix (lines 686, 689), reading the
pre-assignment guess values as the source does (both index sets are
computed before either assignment). -/
def degenSlip (guess slip : MatFV) : MatFV :=
  List.zipWith (fun grow srow =>
    List.zipWith (fun g s =>
      if fvLe (.num (1 / 2)) s || fvLe (.num 1) (fvAdd g s) then FV.nan else s) grow srow)
    guess slip

/-- The values of `estimate`'s five array arguments after the call. -/
structure EstArgsAfter where
  score_records : List SRow
  current_guess : MatFV
  current_slip : MatFV
  current_transit : MatFV
  mastery_prior : VecFV

/-- The dictionary returned by `estimate`, plus the after-call state of the
array arguments. -/
structure EstimateOut where
  L_i : VecFV
  trans : MatFV
  guess : MatFV
  slip : MatFV
  L_i_nan : VecFV
  trans_nan : MatFV
  guess_nan : MatFV
  slip_nan : MatFV
  args : EstArgsAfter

/-- `estimate` from `engine.py` lines 560-724, translated line by line:
zeroed accumulators; `m_k = calculate_relevance(guess, slip)` on the zeroed
accumulators (`estimate_m_k`); the learner loop over `np.unique` of the
learner column with rows selected by `score_activity == learner`
(`estimateLearnerStep`); normalization over non-zero denominators;
NaN-out below the information threshold; optional degeneracy removal;
conversion to odds; `_nan` copies; and the four final
`fillna(..., inplace=True)` calls (which, per the `fillna` translation,
replace on a discarded copy), followed by `1.0 *` on each returned array. -/
def estimate (lg : FV → FV) (score_records : List SRow)
    (current_guess current_slip current_transit : MatFV) (mastery_prior : VecFV)
    (relevance_threshold information_threshold : ℚ) (remove_degeneracy : Bool) :
    EstimateOut :=
  let n_items := current_guess.length
  let n_los := (current_guess.headD []).length
  let acc0 : EstAccum :=
    { p_i := zerosV n_los, p_i_denom := zerosV n_los
      guess := zerosM n_items n_los, guess_denom := zerosM n_items n_los
      slip := zerosM n_items n_los, slip_denom := zerosM n_items n_los
      trans := zerosM n_items n_los, trans_denom := zerosM n_items n_los }
  let m_k := estimate_m_k lg current_guess
  let learners := uniqueSorted (score_records.map scoreLearner)
  let acc := learners.foldl
    (estimateLearnerStep lg score_records current_guess current_slip m_k n_los
      relevance_threshold) acc0
  let p_i := normVec acc.p_i acc.p_i_denom
  let trans := normMat acc.trans acc.trans_denom
  let guess := normMat acc.guess acc.guess_denom
  let slip := normMat acc.slip acc.slip_denom
  let p_i2 := nanOutVec p_i acc.p_i_denom information_threshold
  let trans2 := nanOutMat trans acc.trans_denom information_threshold
  let guess2 := nanOutMat guess acc.guess_denom information_threshold
  let slip2 := nanOutMat slip acc.slip_denom information_threshold
  let guess3 := if remove_degeneracy then degenGuess guess2 slip2 else guess2
  let slip3 := if remove_degeneracy then degenSlip guess2 slip2 else slip2
  let L := p_i2.map oddsF
  let transO := trans2.map (List.map oddsF)
  let guessO := guess3.map (List.map oddsF)
  let slipO := slip3.map (List.map oddsF)
  let L_i_nan := L
  let trans_nan := transO
  let guess_nan := guessO
  let slip_nan := slipO
  let fL := fillnaVec L (FillV.farr mastery_prior) true
  let fT := fillnaMat transO (FillM.farrM current_transit) true
  let fG := fillnaMat guessO (FillM.farrM current_guess) true
  let fS := fillnaMat slipO (FillM.farrM current_slip) true
  let one := fun v => fvMul (.num 1) v
  { L_i := fL.x_after.map one
    trans := fT.x_after.map (List.map one)
    guess := fG.x_after.map (List.map one)
    slip := fS.x_after.map (List.map one)
    L_i_nan := L_i_nan.map one
    trans_nan := trans_nan.map (List.map one)
    guess_nan := guess_nan.map (List.map one)
    slip_nan := slip_nan.map (List.map one)
    args :=
      { score_records := score_records
        current_guess := fG.value_after.arrOf
        current_slip := fS.value_after.arrOf
        current_transit := fT.value_after.arrOf
        mastery_prior := fL.value_after.arrOf } }

/-- Decidable test that row `i` minimizes the cost column (used to state the
claim's minimizing index set). -/
def isMinIdx (cq : List ℚ) (N i : ℕ) : Bool :=
  let idxs := List.range (N + 1)
  decide (∀ i2 ∈ idxs, cq.getD i 0 ≤ cq.getD i2 0)

/-- The claim's description of a knowledge column (spec side, for comparison
with `colKnowl`): the set `I` of row indices minimizing the cost column
(ties preserved), and the uniform average of their indicator vectors. -/
def knowledgeColSpec (cq : List ℚ) (N : ℕ) : List ℚ :=
  let I := (List.range (N + 1)).filter (isMinIdx cq N)
  (List.range N).map (fun n =>
    (I.map (fun i => (indicatorVec i N).getD n 0)).sum / (I.length : ℚ))

/-- Concrete 4×1 parameter matrix used as a test input. -/
def halfCol4 : MatFV :=
  [[FV.num (1 / 2)], [FV.num (1 / 2)], [FV.num (1 / 2)], [FV.num (1 / 2)]]

/-- Concrete engine storage used as a test input: one learner with mastery
odds (1,1), one activity with guess/slip/transit odds (1,1), no scores. -/
def exampleState : EngineState :=
  { Mastery := [[1, 1]], Guess := [[1, 1]], Slip := [[1, 1]], Transit := [[1, 1]], Scores := [] }

/-- C5: the claim says `fillna(x, fill, inplace=true)` mutates `x` (NaN/Inf
entries replaced) and returns nothing, and `inplace=false` leaves `x`
unchanged.  The code has the copy inverted (`output = x.copy() if inplace
else x`): with `inplace=true` the argument keeps its NaN (the replacement
happens on a discarded copy), and with `inplace=false` the argument itself
is mutated. -/
theorem fillna_inplace_inverted :
    (fillnaVec [FV.nan] (FillV.fscalar (FV.num 0)) true).x_after = [FV.nan] ∧
    (fillnaVec [FV.nan] (FillV.fscalar (FV.num 0)) true).ret = none ∧
    (fillnaVec [FV.nan] (FillV.fscalar (FV.num 0)) false).x_after = [FV.num 0] ∧
    FV.nan ≠ FV.num 0 :=
  ⟨rfl, rfl, rfl, by decide⟩

/-- C1: the claim says the matrices returned by `estimate` are all finite,
NaN estimates being replaced by the current-parameter entries.  Because the
final `fillna(..., inplace=True)` calls replace on a discarded copy, the
returned matrices keep their NaN entries: on an empty score-record table
(all cells below the information threshold) the returned guess matrix and
mastery prior are all-NaN instead of equalling the current values. -/
theorem estimate_train_outputs_retain_nan :
    ∀ lg : FV → FV,
    (estimate lg [] [[FV.num (1 / 2)]] [[FV.num (1 / 2)]] [[FV.num (1 / 2)]]
        [FV.num (1 / 2)] (1 / 100) 20 true).guess = [[FV.nan]] ∧
    (estimate lg [] [[FV.num (1 / 2)]] [[FV.num (1 / 2)]] [[FV.num (1 / 2)]]
        [FV.num (1 / 2)] (1 / 100) 20 true).L_i = [FV.nan] ∧
    FV.nan ≠ FV.num (1 / 2) :=
  fun _ => ⟨rfl, rfl, by decide⟩

/-- C3: the claim says `estimate` aggregates learner `u`'s contribution from
the rows whose learner column (column 0) equals `u`.  The source selects
`score_records[score_activity == learner]` — comparing the *activity*
column.  For the table `[(7, 3, 1)]` (learner 7, activity 3): the code's
selection for learner 7 is empty even though the learner-column selection
is non-empty, and the estimate equals the estimate of an empty table (the
learner's record is ignored entirely). -/
theorem estimate_selects_rows_by_activity_column :
    ∀ lg : FV → FV,
    learnerRows [(FV.num 7, FV.num 3, FV.num 1)] (FV.num 7) = [] ∧
    learnerRowsByLearner [(FV.num 7, FV.num 3, FV.num 1)] (FV.num 7) =
      [(FV.num 7, FV.num 3, FV.num 1)] ∧
    (estimate lg [(FV.num 7, FV.num 3, FV.num 1)] halfCol4 halfCol4 halfCol4
        [FV.num (1 / 2)] (1 / 100) 20 true).guess =
      (estimate lg [] halfCol4 halfCol4 halfCol4
        [FV.num (1 / 2)] (1 / 100) 20 true).guess ∧
    (estimate lg [(FV.num 7, FV.num 3, FV.num 1)] halfCol4 halfCol4 halfCol4
        [FV.num (1 / 2)] (1 / 100) 20 true).L_i =
      (estimate lg [] halfCol4 halfCol4 halfCol4
        [FV.num (1 / 2)] (1 / 100) 20 true).L_i :=
  fun _ => ⟨rfl, rfl, rfl, rfl⟩

/-- C4: the claim says the relevance matrix used for exposure masking is
computed element-wise from the current guess and slip matrices as
`-log(odds(guess)) - log(odds(slip))`.  The source computes
`m_k = calculate_relevance(guess, slip)` right after `guess` and `slip`
are bound to zero matrices, so `m_k` is the same whatever the current
matrices hold (first conjunct), while the claimed formula distinguishes
current guess/slip `1/2` (relevance 0) from `1/4` (second conjunct). -/
theorem estimate_relevance_from_zeroed_accumulators :
    (∀ lg : FV → FV,
      estimate_m_k lg [[FV.num (1 / 2)]] = estimate_m_k lg [[FV.num (1 / 4)]]) ∧
    -Real.log ((odds (1 / 2) : ℚ) : ℝ) - Real.log ((odds (1 / 2) : ℚ) : ℝ) ≠
      -Real.log ((odds (1 / 4) : ℚ) : ℝ) - Real.log ((odds (1 / 4) : ℚ) : ℝ) := by
  constructor
  · intro lg; rfl
  · have h1 : odds (1 / 2) = 1 := by norm_num [odds, EPSILON, min_def, max_def]
    have h2 : odds (1 / 4) = 1 / 3 := by norm_num [odds, EPSILON, min_def, max_def]
    rw [h1, h2]
    have h3 : Real.log (((1 / 3 : ℚ) : ℝ)) < 0 := by
      rw [show ((1 / 3 : ℚ) : ℝ) = 1 / 3 by norm_num]
      exact Real.log_neg (by norm_num) (by norm_num)
    have h4 : ((1 : ℚ) : ℝ) = 1 := by norm_num
    rw [h4, Real.log_one]
    intro h
    rw [neg_zero, zero_sub, neg_zero] at h
    nlinarith [h3]

/-- C2: the claim says `recommendation_score` returns
`W_p*P + W_r*R + W_d*D + W_c*C` (each weight multiplying the sub-strategy
named by its subscript).  The source dots `weights = [W_p, W_r, W_d, W_c]`
against `subscores = [P, R, C, D]`, so `W_d` multiplies C and `W_c`
multiplies D.  With weights (0,0,1,0) on an input where C = [0] and
D = [-2], the code returns [0] while the claimed combination is [-2]. -/
theorem recommendation_weights_misaligned :
    ∀ sqrtF : FV → FV,
    (recommendation_score sqrtF [[FV.num 1]] [FV.num 2] [[FV.num 0]] (FV.num 0) (FV.num 0)
        [FV.num 0] (FV.num 0) (FV.num 0) (FV.num 1) (FV.num 0) none).1 = [FV.num 0] ∧
    recommendation_score_claim sqrtF [[FV.num 1]] [FV.num 2] [[FV.num 0]] (FV.num 0) (FV.num 0)
        [FV.num 0] (FV.num 0) (FV.num 0) (FV.num 1) (FV.num 0) none = [FV.num (-2)] ∧
    FV.num 0 ≠ FV.num (-2) := by
  intro sqrtF
  refine ⟨?_, ?_, by simp⟩
  · norm_num [recommendation_score, recommendation_score_P, recommendation_score_R,
      recommendation_score_C, recommendation_score_D, fillnaMat, vecMatFV, matVecFV, dotFV,
      fvMin, fvMax, fvAdd, fvMul, fvSub, fvNeg, fvAbs, fvLt, isnanF, isinfF, List.range_succ]
  · norm_num [recommendation_score_claim, recommendation_score_P, recommendation_score_R,
      recommendation_score_C, recommendation_score_D, fillnaMat, vecMatFV, matVecFV, dotFV,
      fvMin, fvMax, fvAdd, fvMul, fvSub, fvNeg, fvAbs, fvLt, isnanF, isinfF, List.range_succ]

/-- C9: the claim says `recommendation_score` leaves all of its array
inputs unchanged, NaN entries of the prereq matrix being treated as 0
without being written back.  Through `recommendation_score_P`'s call
`fillna(m_w)` (default `inplace=False`, which mutates its argument), a NaN
prereq entry is overwritten with 0 in the caller's array. -/
theorem recommendation_score_mutates_prereqs :
    ∀ sqrtF : FV → FV,
    (recommendation_score sqrtF [[FV.num 1]] [FV.num 1] [[FV.nan]] (FV.num 0) (FV.num 0)
        [FV.num 0] (FV.num 1) (FV.num 1) (FV.num 1) (FV.num 1) none).2 = [[FV.num 0]] ∧
    FV.nan ≠ FV.num 0 :=
  fun _ => ⟨rfl, by decide⟩

/-- C10: `estimate` never writes into any of its five array arguments: the
score-record table is only read, the current matrices and the mastery prior
flow only into read positions (`knowledge` and the `value` argument of the
final `fillna` calls, which is never assigned).  After the call all five
hold their original values. -/
theorem estimate_args_unchanged (lg : FV → FV) (score_records : List SRow)
    (g s t : MatFV) (mp : VecFV) (rth ith : ℚ) (rd : Bool) :
    (estimate lg score_records g s t mp rth ith rd).args =
      ⟨score_records, g, s, t, mp⟩ :=
  rfl

/-- C6 counterexample: the claim says every component produced by
`calculate_mastery_update` lies in `[EPSILON, 1/EPSILON]`.  With in-domain
inputs (mastery odds `10^11 > 0`, score `1 ∈ [0,1]`, guess/slip/transit
odds `1 > 0`) the produced component is `2·10^11 + 1 > 1/EPSILON`: the
source only rewrites `+inf` cells to `1/epsilon` and exact zeros to
`epsilon`; finite values are never clipped into the interval. -/
theorem mastery_update_escapes_epsilon_interval :
    (0 : ℚ) < 100000000000 ∧ ((0 : ℚ) ≤ 1 ∧ (1 : ℚ) ≤ 1) ∧
    1 / EPSILON <
      (calculate_mastery_update powLinear [100000000000] 1 [1] [1] [1] EPSILON).getD 0 0 :=
  ⟨by norm_num, ⟨by norm_num, le_refl 1⟩,
    by norm_num [calculate_mastery_update, x0_mult, x1_0_mult, powLinear, EPSILON]⟩

/-- C7 counterexample: the claim says `update_from_score` with a score
outside `[0,1]` raises `ValidationError` and performs neither the mastery
write nor the score append.  The source contains no validation: with
score 2 the score record is appended and the mastery row is rewritten. -/
theorem update_from_score_accepts_out_of_range :
    (1 : ℚ) < 2 ∧
    (updateFromScore powLinear exampleState 0 0 2).Scores = [(0, 0, (2 : ℚ))] ∧
    exampleState.Scores = [] ∧
    (updateFromScore powLinear exampleState 0 0 2).Mastery = [[(3 : ℚ), 3]] ∧
    exampleState.Mastery = [[1, 1]] :=
  ⟨by norm_num, by norm_num [updateFromScore, exampleState],
    rfl,
    by norm_num [updateFromScore, exampleState, calculate_mastery_update, x0_mult, x1_0_mult,
      powLinear, EPSILON],
    rfl⟩

/-- C7 amended: `update_from_score` performs no range validation — for
every score, in particular any score with `s < 0` or `s > 1`, it computes
the mastery update, writes the new mastery row, and appends the score
record; no error path exists. -/
theorem update_from_score_no_validation (qpow : ℚ → ℚ → ℚ) (st : EngineState)
    (learner activity : ℕ) (score : ℚ) (_hout : score < 0 ∨ 1 < score) :
    (updateFromScore qpow st learner activity score).Scores =
      st.Scores ++ [(learner, activity, score)] ∧
    (updateFromScore qpow st learner activity score).Mastery =
      st.Mastery.set learner
        (calculate_mastery_update qpow (st.Mastery.getD learner []) score
          (st.Guess.getD activity []) (st.Slip.getD activity [])
          (st.Transit.getD activity []) EPSILON) :=
  ⟨rfl, rfl⟩

/-- Witness for `update_from_score_no_validation` at score 2. -/
theorem update_from_score_no_validation_witness :
    ((2 : ℚ) < 0 ∨ (1 : ℚ) < 2) ∧
    (updateFromScore powLinear exampleState 0 0 2).Scores =
      exampleState.Scores ++ [(0, 0, (2 : ℚ))] :=
  ⟨Or.inr (by norm_num),
    (update_from_score_no_validation powLinear exampleState 0 0 2 (Or.inr (by norm_num))).1⟩

/-- Membership in a `zipWith` comes from members of the two lists. -/
theorem mem_zipWith_decomp {α β γ : Type} {f : α → β → γ} {c : γ} :
    ∀ {as : List α} {bs : List β}, c ∈ List.zipWith f as bs →
      ∃ a ∈ as, ∃ b ∈ bs, c = f a b := by
  intro as
  induction as with
  | nil => intro bs h; simp at h
  | cons a as ih =>
    intro bs h
    cases bs with
    | nil => simp at h
    | cons b bs =>
      rw [List.zipWith_cons_cons] at h
      rcases List.mem_cons.mp h with h1 | h2
      · exact ⟨a, List.mem_cons_self a as, b, List.mem_cons_self b bs, h1⟩
      · obtain ⟨a2, ha, b2, hb, hc⟩ := ih h2
        exact ⟨a2, List.mem_cons_of_mem a ha, b2, List.mem_cons_of_mem b hb, hc⟩

/-- C6 amended: with strictly positive mastery and guess/slip/transit odds,
any score, a positive epsilon, and a positivity-preserving power function,
every component produced by `calculate_mastery_update` is strictly positive
(zero components are replaced by epsilon and, in float arithmetic, `+inf`
components by `1/epsilon`; finite nonzero components are returned as
computed, without being clipped into `[EPSILON, 1/EPSILON]`). -/
theorem mastery_update_positive (qpow : ℚ → ℚ → ℚ) (mastery : List ℚ) (score : ℚ)
    (guess slip transit : List ℚ) (epsilon : ℚ)
    (hpow : ∀ a b : ℚ, 0 < a → 0 < qpow a b) (_heps : 0 < epsilon)
    (hm : ∀ m ∈ mastery, 0 < m) (hg : ∀ g ∈ guess, 0 < g)
    (hs : ∀ s2 ∈ slip, 0 < s2) (ht : ∀ t ∈ transit, 0 < t) :
    ∀ v ∈ calculate_mastery_update qpow mastery score guess slip transit epsilon, 0 < v := by
  intro v hv
  simp only [calculate_mastery_update, List.mem_map] at hv
  obtain ⟨l, hl, rfl⟩ := hv
  obtain ⟨l1, hl1mem, t, htmem, rfl⟩ := mem_zipWith_decomp hl
  obtain ⟨m, hmmem, xv, hxvmem, rfl⟩ := mem_zipWith_decomp hl1mem
  obtain ⟨g, hgmem, s2, hsmem, rfl⟩ := mem_zipWith_decomp hxvmem
  have hgpos := hg g hgmem
  have hspos := hs s2 hsmem
  have hx0 : 0 < x0_mult g s2 := by
    unfold x0_mult
    exact div_pos (mul_pos hspos (by linarith)) (by linarith)
  have hx1 : 0 < x1_0_mult g s2 := by
    unfold x1_0_mult
    exact div_pos (div_pos (by linarith) (mul_pos hgpos (by linarith))) hx0
  have hxv : 0 < x0_mult g s2 * qpow (x1_0_mult g s2) score :=
    mul_pos hx0 (hpow _ _ hx1)
  have hl1 : 0 < m * (x0_mult g s2 * qpow (x1_0_mult g s2) score) :=
    mul_pos (hm m hmmem) hxv
  have hlpos : 0 < m * (x0_mult g s2 * qpow (x1_0_mult g s2) score) +
      t * (m * (x0_mult g s2 * qpow (x1_0_mult g s2) score) + 1) := by
    have htpos := ht t htmem
    nlinarith
  rw [if_neg (ne_of_gt hlpos)]
  exact hlpos

/-- Witness for `mastery_update_positive` at mastery (1), score 1, odds (1). -/
theorem mastery_update_positive_witness :
    (3 : ℚ) ∈ calculate_mastery_update powLinear [1] 1 [1] [1] [1] EPSILON ∧ 0 < (3 : ℚ) :=
  have hmem : (3 : ℚ) ∈ calculate_mastery_update powLinear [1] 1 [1] [1] [1] EPSILON := by
    norm_num [calculate_mastery_update, x0_mult, x1_0_mult, powLinear, EPSILON]
  ⟨hmem,
    mastery_update_positive powLinear [1] 1 [1] [1] [1] EPSILON
      (fun a _ ha => ha) (by norm_num [EPSILON])
      (by norm_num) (by norm_num) (by norm_num) (by norm_num) 3 hmem⟩

/-- `getD` at an in-range index is the element. -/
theorem getD_eq_getElem {α : Type} (l : List α) (n : ℕ) (h : n < l.length) (d : α) :
    l.getD n d = l[n] := by
  rw [List.getD_eq_getElem?_getD, List.getElem?_eq_getElem h]
  rfl

/-- `getD` through a `map` over `List.range`. -/
theorem getD_map_range {α : Type} (f : ℕ → α) (N n : ℕ) (hn : n < N) (d : α) :
    ((List.range N).map f).getD n d = f n := by
  have h1 : n < ((List.range N).map f).length := by simpa using hn
  rw [getD_eq_getElem _ _ h1, List.getElem_map, List.getElem_range]

/-- The running minimum kept by Python's `min` is at most its seed. -/
theorem qfold_min_le_init :
    ∀ (t : List ℚ) (a : ℚ), t.foldl (fun x y => if y < x then y else x) a ≤ a := by
  intro t
  induction t with
  | nil => intro a; exact le_refl a
  | cons b t ih =>
    intro a
    have h1 := ih (if b < a then b else a)
    have h2 : (if b < a then b else a) ≤ a := by split <;> linarith
    calc (b :: t).foldl (fun x y => if y < x then y else x) a
        = t.foldl (fun x y => if y < x then y else x) (if b < a then b else a) := rfl
      _ ≤ a := le_trans h1 h2

/-- The running minimum is at most every traversed element. -/
theorem qfold_min_le_mem :
    ∀ (t : List ℚ) (a : ℚ), ∀ x ∈ t, t.foldl (fun x y => if y < x then y else x) a ≤ x := by
  intro t
  induction t with
  | nil => intro a x hx; simp at hx
  | cons b t ih =>
    intro a x hx
    rcases List.mem_cons.mp hx with h1 | h2
    · subst h1
      have h3 := qfold_min_le_init t (if x < a then x else a)
      have h4 : (if x < a then x else a) ≤ x := by split <;> linarith
      exact le_trans h3 h4
    · exact ih (if b < a then b else a) x h2

/-- The running minimum is the seed or one of the traversed elements. -/
theorem qfold_min_mem :
    ∀ (t : List ℚ) (a : ℚ), t.foldl (fun x y => if y < x then y else x) a = a ∨
      t.foldl (fun x y => if y < x then y else x) a ∈ t := by
  intro t
  induction t with
  | nil => intro a; exact Or.inl rfl
  | cons b t ih =>
    intro a
    rcases ih (if b < a then b else a) with h1 | h2
    · rw [show (b :: t).foldl (fun x y => if y < x then y else x) a =
          t.foldl (fun x y => if y < x then y else x) (if b < a then b else a) from rfl, h1]
      split
      · exact Or.inr (List.mem_cons_self b t)
      · exact Or.inl rfl
    · exact Or.inr (List.mem_cons_of_mem b h2)

/-- `pythonMin` on a list of finite floats is the rational running minimum. -/
theorem pythonMin_map_num (a : ℚ) (t : List ℚ) :
    pythonMin ((a :: t).map FV.num) =
      FV.num (t.foldl (fun x y => if y < x then y else x) a) := by
  show (t.map FV.num).foldl (fun acc v => if fvLt v acc then v else acc) (FV.num a) = _
  induction t generalizing a with
  | nil => rfl
  | cons b t ih =>
    show (t.map FV.num).foldl (fun acc v => if fvLt v acc then v else acc)
        (if fvLt (FV.num b) (FV.num a) then FV.num b else FV.num a) = _
    have hstep : (if fvLt (FV.num b) (FV.num a) then FV.num b else FV.num a) =
        FV.num (if b < a then b else a) := by
      by_cases hba : b < a <;> simp [fvLt, hba]
    rw [hstep, ih]
    rfl

/-- A list whose members are all finite floats is the `FV.num` image of its
rational contents. -/
theorem allnum_eq_map (col : List FV) (h : ∀ v ∈ col, ∃ q, v = FV.num q) :
    col = (col.map ratOf).map FV.num := by
  induction col with
  | nil => rfl
  | cons v col ih =>
    obtain ⟨q, rfl⟩ := h v (List.mem_cons_self v col)
    rw [List.map_cons, List.map_cons]
    rw [show ratOf (FV.num q) = q from rfl]
    rw [← ih (fun w hw => h w (List.mem_cons_of_mem _ hw))]

/-- The length of an indicator vector is the number of attempts. -/
theorem indicatorVec_length (i N : ℕ) : (indicatorVec i N).length = N := by
  unfold indicatorVec
  split
  · simp
  · split
    · simp only [List.length_append, List.length_replicate]
      omega
    · simp

/-- `getD` of a pointwise sum of rational vectors. -/
theorem getD_zipWith_add (a b : List ℚ) (n : ℕ) (ha : n < a.length) (hb : n < b.length) :
    (List.zipWith (· + ·) a b).getD n 0 = a.getD n 0 + b.getD n 0 := by
  have hz : n < (List.zipWith (· + ·) a b).length := by
    rw [List.length_zipWith]
    omega
  rw [getD_eq_getElem _ _ hz, getD_eq_getElem _ _ ha, getD_eq_getElem _ _ hb,
    List.getElem_zipWith]

/-- Length is preserved by the indicator-summing fold of `colKnowl`. -/
theorem foldl_addIndicator_length (N : ℕ) :
    ∀ (l : List ℕ) (init : List ℚ), init.length = N →
      (l.foldl (fun acc i => List.zipWith (· + ·) acc (indicatorVec i N)) init).length = N := by
  intro l
  induction l with
  | nil => intro init h; exact h
  | cons i l ih =>
    intro init h
    refine ih _ ?_
    rw [List.length_zipWith, indicatorVec_length, h]
    exact Nat.min_self N

/-- Entry `n` of the indicator-summing fold of `colKnowl` is the seed entry
plus the sum of the indicator entries. -/
theorem foldl_addIndicator_getD (N n : ℕ) (hn : n < N) :
    ∀ (l : List ℕ) (init : List ℚ), init.length = N →
      (l.foldl (fun acc i => List.zipWith (· + ·) acc (indicatorVec i N)) init).getD n 0 =
        init.getD n 0 + (l.map (fun i => (indicatorVec i N).getD n 0)).sum := by
  intro l
  induction l with
  | nil => intro init h; simp
  | cons i l ih =>
    intro init h
    have hstep : (List.zipWith (· + ·) init (indicatorVec i N)).length = N := by
      rw [List.length_zipWith, indicatorVec_length, h]
      exact Nat.min_self N
    calc ((i :: l).foldl (fun acc i => List.zipWith (· + ·) acc (indicatorVec i N)) init).getD n 0
        = (l.foldl (fun acc i => List.zipWith (· + ·) acc (indicatorVec i N))
            (List.zipWith (· + ·) init (indicatorVec i N))).getD n 0 := rfl
      _ = (List.zipWith (· + ·) init (indicatorVec i N)).getD n 0 +
            (l.map (fun i => (indicatorVec i N).getD n 0)).sum := ih _ hstep
      _ = init.getD n 0 + (indicatorVec i N).getD n 0 +
            (l.map (fun i => (indicatorVec i N).getD n 0)).sum := by
          rw [getD_zipWith_add _ _ n (by omega) (by rw [indicatorVec_length]; omega)]
      _ = init.getD n 0 + ((i :: l).map (fun i => (indicatorVec i N).getD n 0)).sum := by
          rw [List.map_cons, List.sum_cons]
          ring


/-- Entry `n` of the per-column loop of `knowledge` equals entry `n` of the
claim's minimizing-set average, for a column of finite costs. -/
theorem colKnowl_eq_spec (c0 : ℚ) (ct : List ℚ) (N n : ℕ)
    (hlen : (c0 :: ct).length = N + 1) (hn : n < N) :
    (colKnowl ((c0 :: ct).map FV.num) N).getD n 0 =
      (knowledgeColSpec (c0 :: ct) N).getD n 0 := by
  have hM : ∀ x ∈ c0 :: ct, ct.foldl (fun x y => if y < x then y else x) c0 ≤ x := by
    intro x hx
    rcases List.mem_cons.mp hx with h1 | h2
    · subst h1
      exact qfold_min_le_init ct x
    · exact qfold_min_le_mem ct c0 x h2
  have hMmem : ct.foldl (fun x y => if y < x then y else x) c0 ∈ c0 :: ct := by
    rcases qfold_min_mem ct c0 with h1 | h2
    · rw [h1]
      exact List.mem_cons_self _ _
    · exact List.mem_cons_of_mem _ h2
  have hiff : ∀ i, i < N + 1 →
      ((c0 :: ct).getD i 0 = ct.foldl (fun x y => if y < x then y else x) c0 ↔
        isMinIdx (c0 :: ct) N i = true) := by
    intro i hi
    simp only [isMinIdx, decide_eq_true_eq]
    constructor
    · intro he i2 hi2
      have hi2l : i2 < (c0 :: ct).length := by
        rw [hlen]
        exact List.mem_range.mp hi2
      have hmem : (c0 :: ct).getD i2 0 ∈ c0 :: ct := by
        rw [getD_eq_getElem _ _ hi2l]
        exact List.getElem_mem hi2l
      rw [he]
      exact hM _ hmem
    · intro hall
      obtain ⟨i0, hi0, he0⟩ := List.getElem_of_mem hMmem
      have h1 : (c0 :: ct).getD i 0 ≤ ct.foldl (fun x y => if y < x then y else x) c0 := by
        have h2 := hall i0 (List.mem_range.mpr (by rw [hlen] at hi0; exact hi0))
        rw [getD_eq_getElem _ _ hi0, he0] at h2
        exact h2
      have hil : i < (c0 :: ct).length := by
        rw [hlen]
        exact hi
      have h3 : (c0 :: ct).getD i 0 ∈ c0 :: ct := by
        rw [getD_eq_getElem _ _ hil]
        exact List.getElem_mem hil
      exact le_antisymm h1 (hM _ h3)
  have hfilter : (List.range (N + 1)).filter
      (fun i => fvBeq (((c0 :: ct).map FV.num).getD i FV.nan)
        (pythonMin ((c0 :: ct).map FV.num))) =
      (List.range (N + 1)).filter (isMinIdx (c0 :: ct) N) := by
    apply List.filter_congr
    intro i hi
    have hi' : i < N + 1 := List.mem_range.mp hi
    have hil : i < (c0 :: ct).length := by
      rw [hlen]
      exact hi'
    have hmapped : ((c0 :: ct).map FV.num).getD i FV.nan = FV.num ((c0 :: ct).getD i 0) := by
      have h1 : i < ((c0 :: ct).map FV.num).length := by simpa using hil
      rw [getD_eq_getElem _ _ h1, List.getElem_map, getD_eq_getElem _ _ hil]
    rw [hmapped, pythonMin_map_num]
    rw [show fvBeq (FV.num ((c0 :: ct).getD i 0))
        (FV.num (ct.foldl (fun x y => if y < x then y else x) c0)) =
      decide ((c0 :: ct).getD i 0 = ct.foldl (fun x y => if y < x then y else x) c0) from rfl]
    rcases hb : isMinIdx (c0 :: ct) N i with _ | _
    · simp only [decide_eq_false_iff_not]
      intro hc
      rw [(hiff i hi').mp hc] at hb
      cases hb
    · simp only [decide_eq_true_eq]
      exact (hiff i hi').mpr hb
  have hcode : colKnowl ((c0 :: ct).map FV.num) N =
      (((List.range (N + 1)).filter (isMinIdx (c0 :: ct) N)).foldl
        (fun acc i => List.zipWith (· + ·) acc (indicatorVec i N))
        (List.replicate N (0 : ℚ))).map
        (fun v => v /
          ((((List.range (N + 1)).filter (isMinIdx (c0 :: ct) N)).length : ℚ))) := by
    show (((List.range (N + 1)).filter
        (fun i => fvBeq (((c0 :: ct).map FV.num).getD i FV.nan)
          (pythonMin ((c0 :: ct).map FV.num)))).foldl
        (fun acc i => List.zipWith (· + ·) acc (indicatorVec i N))
        (List.replicate N (0 : ℚ))).map
        (fun v => v /
          ((((List.range (N + 1)).filter
            (fun i => fvBeq (((c0 :: ct).map FV.num).getD i FV.nan)
              (pythonMin ((c0 :: ct).map FV.num)))).length : ℚ))) = _
    rw [hfilter]
  have hspec : knowledgeColSpec (c0 :: ct) N =
      (List.range N).map (fun n2 =>
        ((((List.range (N + 1)).filter (isMinIdx (c0 :: ct) N)).map
          (fun i => (indicatorVec i N).getD n2 0)).sum) /
        ((((List.range (N + 1)).filter (isMinIdx (c0 :: ct) N)).length : ℚ))) := rfl
  rw [hcode, hspec, getD_map_range _ _ _ hn]
  have hslen : (((List.range (N + 1)).filter (isMinIdx (c0 :: ct) N)).foldl
      (fun acc i => List.zipWith (· + ·) acc (indicatorVec i N))
      (List.replicate N (0 : ℚ))).length = N :=
    foldl_addIndicator_length N _ _ (List.length_replicate N 0)
  have hmn : n < ((((List.range (N + 1)).filter (isMinIdx (c0 :: ct) N)).foldl
      (fun acc i => List.zipWith (· + ·) acc (indicatorVec i N))
      (List.replicate N (0 : ℚ))).map
      (fun v => v /
        ((((List.range (N + 1)).filter (isMinIdx (c0 :: ct) N)).length : ℚ)))).length := by
    rw [List.length_map, hslen]
    exact hn
  rw [getD_eq_getElem _ _ hmn, List.getElem_map,
    ← getD_eq_getElem _ n (by rw [hslen]; exact hn) (0 : ℚ),
    foldl_addIndicator_getD N n hn _ _ (List.length_replicate N 0)]
  have hrep : (List.replicate N (0 : ℚ)).getD n 0 = 0 := by
    rw [getD_eq_getElem _ _ (by simpa using hn), List.getElem_replicate]
  rw [hrep, zero_add]

/-- The cost matrix has one row per attempt plus one. -/
theorem kZ_length (lg : FV → FV) (scores : List SRow) (guess slip : MatFV) :
    (kZ lg scores guess slip).length = scores.length + 1 := by
  simp [kZ]

/-- C8: for a single-learner score sequence, column `k` of the matrix
returned by `knowledge` is the uniform average, over the set `I` of row
indices minimizing column `k` of the `(N+1)×K` cost matrix `z` (`kZ`), of
the indicator vectors (all-ones for `i = 0`, ones on `[i,N)` for
`0 < i < N`, all-zeros for `i = N`); ties are averaged, not broken.  Stated
entry-wise against `knowledgeColSpec` (the claim's formulation), under the
hypothesis that the cost column is finite (as it is when the activity
indices are in range and the log values are finite). -/
theorem knowledge_ties_uniform_average (lg : FV → FV) (scores : List SRow)
    (guess slip : MatFV) (k n : ℕ)
    (hk : k < (guess.headD []).length) (hn : n < scores.length)
    (hnum : ∀ v ∈ (kZ lg scores guess slip).map (fun row => row.getD k FV.nan),
      ∃ q, v = FV.num q) :
    ((knowledge lg scores guess slip).getD n []).getD k 0 =
      (knowledgeColSpec
        (((kZ lg scores guess slip).map (fun row => row.getD k FV.nan)).map ratOf)
        scores.length).getD n 0 := by
  set z := kZ lg scores guess slip with hz
  set col := z.map (fun row => row.getD k FV.nan) with hcolDef
  have hentry : ((knowledge lg scores guess slip).getD n []).getD k 0 =
      (colKnowl col scores.length).getD n 0 := by
    show ((((List.range scores.length).map (fun n2 =>
        (List.range (guess.headD []).length).map (fun j =>
          (colKnowl (z.map (fun row => row.getD j FV.nan)) scores.length).getD n2 0))).getD
            n []).getD k 0) = _
    rw [getD_map_range _ _ _ hn, getD_map_range _ _ _ hk]
  rw [hentry]
  have hcl : col.length = scores.length + 1 := by
    rw [hcolDef, List.length_map, hz, kZ_length]
  rcases hcq : col.map ratOf with _ | ⟨c0, ct⟩
  · exfalso
    have := congrArg List.length hcq
    rw [List.length_map, hcl] at this
    cases this
  · have hcol2 : col = (c0 :: ct).map FV.num := by
      rw [← hcq]
      exact allnum_eq_map col hnum
    rw [hcol2]
    refine colKnowl_eq_spec c0 ct scores.length n ?_ hn
    have := congrArg List.length hcq
    rw [List.length_map, hcl] at this
    exact this.symm

/-- Witness for `knowledge_ties_uniform_average`: one score record
(learner 0, activity 0, score 1) against 1×1 parameter matrices, KC 0,
attempt 0, with the constant-zero log function. -/
theorem knowledge_ties_uniform_average_witness :
    0 < [((FV.num 0, FV.num 0, FV.num 1) : SRow)].length ∧
    ((knowledge (fun _ => FV.num 0) [(FV.num 0, FV.num 0, FV.num 1)] [[FV.num (1 / 2)]]
        [[FV.num (1 / 2)]]).getD 0 []).getD 0 0 =
      (knowledgeColSpec
        (((kZ (fun _ => FV.num 0) [(FV.num 0, FV.num 0, FV.num 1)] [[FV.num (1 / 2)]]
          [[FV.num (1 / 2)]]).map (fun row => row.getD 0 FV.nan)).map ratOf)
        [((FV.num 0, FV.num 0, FV.num 1) : SRow)].length).getD 0 0 := by
  have hcolval : (kZ (fun _ => FV.num 0) [(FV.num 0, FV.num 0, FV.num 1)] [[FV.num (1 / 2)]]
      [[FV.num (1 / 2)]]).map (fun row => row.getD 0 FV.nan) = [FV.num 0, FV.num 0] := by
    norm_num [kZ, dotFV, fvMul, fvAdd, fvNeg, fvSub, scoreValue, scoreActivity, fvToNat,
      Rat.floor, List.range_succ]
  refine ⟨by norm_num, ?_⟩
  exact knowledge_ties_uniform_average (fun _ => FV.num 0)
    [(FV.num 0, FV.num 0, FV.num 1)] [[FV.num (1 / 2)]] [[FV.num (1 / 2)]] 0 0
    (by norm_num) (by norm_num)
    (by
      rw [hcolval]
      intro v hv
      rcases List.mem_cons.mp hv with h1 | h2
      · exact ⟨0, h1⟩
      · rcases List.mem_cons.mp h2 with h3 | h4
        · exact ⟨0, h3⟩
        · simp at h4)
